import Mathlib

/-!
Verification of the RateSense loan-simulation core (src/app.js).

The numeric core of the repository is embedded shallowly over `ℚ`
(JavaScript numbers are IEEE doubles; all the claims under scrutiny are
about the exact algebraic recurrences of the simulation loops, so the
embedding uses exact rational arithmetic).  `while` loops with the
safety ceilings (`MAX_MONTHS = 1200` for loans, `600` for credit cards)
become fuel recursion with the fuel equal to the remaining allowance of
the month counter.  Functions of the source that take a term in `years`
and immediately use `n = years * 12` months are parametrised here by the
integer month count `n` (every call site of the core passes a whole
number of months).  `NaN`-valued optional parameters (`isFinite` guards)
become `Option`.

Two kinds of definitions appear: translations of the source (carrying
the source names), and claim-side reference definitions (suffixed
`Spec`) written from the specification text, against which the source
translations are proved.
-/

/-- One row pushed onto a schedule by `amortizationSchedule` /
`simulateStressAmortized` in src/app.js: `{month, payment, interest,
principal, balance, apr}`. -/
structure Row where
  month : ℕ
  payment : ℚ
  interest : ℚ
  principal : ℚ
  balance : ℚ
  apr : ℚ
  deriving Repr, DecidableEq

/-- src/app.js `monthlyPaymentAmortized(principal, aprPercent, years)`,
parametrised by `n = years * 12` months. -/
def monthlyPaymentAmortized (principal aprPercent : ℚ) (n : ℕ) : ℚ :=
  let r := aprPercent / 100 / 12
  if r = 0 then principal / n
  else
    let pow := (1 + r) ^ n
    principal * (r * pow) / (pow - 1)

/-- Loop body of `amortizationSchedule` (src/app.js line 652): `fuel`
is the number of months still allowed by `month < MAX_MONTHS`. -/
def amortGo (r base extra apr : ℚ) (balance : ℚ) (month : ℕ) : ℕ → List Row
  | 0 => []
  | fuel + 1 =>
    if 1/100 < balance then
      let m := month + 1
      let interest := if r = 0 then 0 else balance * r
      let payment := min (base + extra) (balance + interest)
      let principalPaid := payment - interest
      let newBal := balance - principalPaid
      ⟨m, payment, interest, principalPaid, max 0 newBal, apr⟩ ::
        amortGo r base extra apr newBal m fuel
    else []

/-- Result record of `amortizationSchedule`; `monthlyPaymentBase` is
`schedule[0]?.payment ?? NaN`, the `NaN` branch modelled as `none`. -/
structure AmortResult where
  schedule : List Row
  totalInterest : ℚ
  totalPaid : ℚ
  months : ℕ
  monthlyPaymentBase : Option ℚ

/-- src/app.js `amortizationSchedule(principal, aprPercent, years,
extraMonthly)` (the later declaration, line 652, which wins in JS),
parametrised by `n = years * 12` months.  The running accumulators
`totalInterest` / `totalPaid` of the source equal the sums over the
pushed rows exactly. -/
def amortizationSchedule (principal aprPercent : ℚ) (n : ℕ)
    (extraMonthly : ℚ) : AmortResult :=
  let r := aprPercent / 100 / 12
  let baseMonthly := monthlyPaymentAmortized principal aprPercent n
  let extra := max 0 extraMonthly
  let sched := amortGo r baseMonthly extra aprPercent principal 0 1200
  { schedule := sched
    totalInterest := (sched.map (·.interest)).sum
    totalPaid := (sched.map (·.payment)).sum
    months := sched.length
    monthlyPaymentBase := sched.head?.map (·.payment) }

/-- Claim-side balance recurrence for a fixed-payment loan, written
from the specification: `interest = balance * r`, `payment =
min(pay, balance + interest)`, `balance -= payment - interest`. -/
def loanBalSpec (r pay P : ℚ) : ℕ → ℚ
  | 0 => P
  | m + 1 =>
    let b := loanBalSpec r pay P m
    b + b * r - min pay (b + b * r)

theorem loanBalSpec_succ (r pay P : ℚ) (m : ℕ) :
    loanBalSpec r pay P (m + 1) =
      loanBalSpec r pay P m + loanBalSpec r pay P m * r -
        min pay (loanBalSpec r pay P m + loanBalSpec r pay P m * r) := rfl

/-- The branch `interest = (r === 0) ? 0 : balance * r` always equals
`balance * r` over exact arithmetic. -/
theorem interest_branch (r b : ℚ) : (if r = 0 then 0 else b * r) = b * r := by
  split <;> simp_all

/-- The post-payment balance is never negative:
`b + i - min pay (b + i) = max (b + i - pay) 0`. -/
theorem step_max_form (pay x : ℚ) : x - min pay x = max (x - pay) 0 := by
  rcases le_total pay x with h | h
  · rw [min_eq_left h, max_eq_left (by linarith)]
  · rw [min_eq_right h, max_eq_right (by linarith)]
    ring

theorem loanBalSpec_succ_nonneg (r pay P : ℚ) (m : ℕ) :
    0 ≤ loanBalSpec r pay P (m + 1) := by
  rw [loanBalSpec_succ]
  have h := step_max_form pay (loanBalSpec r pay P m + loanBalSpec r pay P m * r)
  have : loanBalSpec r pay P m + loanBalSpec r pay P m * r -
      min pay (loanBalSpec r pay P m + loanBalSpec r pay P m * r) =
      max (loanBalSpec r pay P m + loanBalSpec r pay P m * r - pay) 0 := by
    linarith [h]
  rw [this]
  exact le_max_right _ _

theorem max_eq_self_of_nonneg {x : ℚ} (h : 0 ≤ x) : max 0 x = x := max_eq_right h

/-- Master correspondence between the `amortizationSchedule` loop and the
claim-side recurrence `loanBalSpec`: row fields, stopping behaviour and
the safety ceiling, for a loop entered at month `k` with the matching
balance. -/
theorem amortGo_trace (r base extra apr P : ℚ) :
    ∀ (fuel k : ℕ) (L : List Row),
      L = amortGo r base extra apr (loanBalSpec r (base + extra) P k) k fuel →
      L.length ≤ fuel ∧
      (L.length < fuel → loanBalSpec r (base + extra) P (k + L.length) ≤ 1/100) ∧
      ∀ j (hj : j < L.length),
        1/100 < loanBalSpec r (base + extra) P (k + j) ∧
        (L.get ⟨j, hj⟩).month = k + j + 1 ∧
        (L.get ⟨j, hj⟩).interest = loanBalSpec r (base + extra) P (k + j) * r ∧
        (L.get ⟨j, hj⟩).payment = min (base + extra)
          (loanBalSpec r (base + extra) P (k + j) +
            loanBalSpec r (base + extra) P (k + j) * r) ∧
        (L.get ⟨j, hj⟩).principal =
          (L.get ⟨j, hj⟩).payment - (L.get ⟨j, hj⟩).interest ∧
        (L.get ⟨j, hj⟩).balance = loanBalSpec r (base + extra) P (k + j + 1) := by
  intro fuel
  induction fuel with
  | zero =>
    intro k L hL
    subst hL
    refine ⟨Nat.le_refl _, by simp [amortGo], ?_⟩
    intro j hj
    simp [amortGo] at hj
  | succ f ih =>
    intro k L hL
    by_cases hb : (1:ℚ)/100 < loanBalSpec r (base + extra) P k
    · have hnew :
          loanBalSpec r (base + extra) P k -
            (min (base + extra)
              (loanBalSpec r (base + extra) P k +
                (if r = 0 then 0 else loanBalSpec r (base + extra) P k * r)) -
              (if r = 0 then 0 else loanBalSpec r (base + extra) P k * r)) =
          loanBalSpec r (base + extra) P (k + 1) := by
        rw [interest_branch, loanBalSpec_succ]
        ring
      simp only [amortGo, if_pos hb] at hL
      rw [hnew] at hL
      obtain ⟨ih1, ih2, ih3⟩ :=
        ih (k + 1) (amortGo r base extra apr (loanBalSpec r (base + extra) P (k + 1)) (k + 1) f) rfl
      set L' := amortGo r base extra apr (loanBalSpec r (base + extra) P (k + 1)) (k + 1) f
        with hL'def
      subst hL
      refine ⟨by simpa using Nat.succ_le_succ ih1, ?_, ?_⟩
      · intro hlen
        have hlen' : L'.length < f := Nat.lt_of_succ_lt_succ (by simpa using hlen)
        have h2 := ih2 hlen'
        have harith : k + 1 + L'.length = k + (L'.length + 1) := by omega
        rw [harith] at h2
        simpa using h2
      · intro j hj
        match j with
        | 0 =>
          simp only [List.get_cons_zero, Nat.add_zero]
          refine ⟨hb, by simp, ?_, ?_, rfl, ?_⟩
          · exact interest_branch r _
          · rw [interest_branch]
            exact rfl
          · exact max_eq_self_of_nonneg (loanBalSpec_succ_nonneg r (base + extra) P k)
        | j' + 1 =>
          have hj' : j' < L'.length := by
            simpa using Nat.lt_of_succ_lt_succ hj
          obtain ⟨a1, a2, a3, a4, a5, a6⟩ := ih3 j' hj'
          have hsh : k + 1 + j' = k + (j' + 1) := by omega
          have hsh2 : k + 1 + j' + 1 = k + (j' + 1) + 1 := by omega
          rw [hsh] at a1 a3 a4
          rw [hsh2] at a2 a6
          exact ⟨a1, a2, a3, a4, a5, a6⟩
    · simp only [amortGo, if_neg hb] at hL
      subst hL
      refine ⟨Nat.zero_le _, ?_, ?_⟩
      · intro _
        simpa using le_of_not_lt hb
      · intro j hj
        simp at hj

/-- Correspondence between `amortizationSchedule` and the claim-side
recurrence, as a reusable helper (full statement of C1 without the
validity hypotheses that the claim adds). -/
theorem amortSchedule_trace (P apr extraMonthly : ℚ) (n : ℕ)
    (hextra : 0 ≤ extraMonthly)
    (r pay : ℚ) (res : AmortResult)
    (hr : r = apr / 100 / 12)
    (hpay : pay = monthlyPaymentAmortized P apr n + extraMonthly)
    (hres : res = amortizationSchedule P apr n extraMonthly) :
    res.months ≤ 1200 ∧
    (res.months < 1200 → loanBalSpec r pay P res.months ≤ 1/100) ∧
    ∀ j (hj : j < res.schedule.length),
      1/100 < loanBalSpec r pay P j ∧
      (res.schedule.get ⟨j, hj⟩).interest = loanBalSpec r pay P j * r ∧
      (apr = 0 → (res.schedule.get ⟨j, hj⟩).interest = 0) ∧
      (res.schedule.get ⟨j, hj⟩).payment =
        min pay (loanBalSpec r pay P j + (res.schedule.get ⟨j, hj⟩).interest) ∧
      (res.schedule.get ⟨j, hj⟩).principal =
        (res.schedule.get ⟨j, hj⟩).payment - (res.schedule.get ⟨j, hj⟩).interest ∧
      (res.schedule.get ⟨j, hj⟩).balance = loanBalSpec r pay P (j + 1) := by
  have hmax : max 0 extraMonthly = extraMonthly := max_eq_right hextra
  subst hr hpay hres
  obtain ⟨h1, h2, h3⟩ :=
    amortGo_trace (apr / 100 / 12) (monthlyPaymentAmortized P apr n)
      (max 0 extraMonthly) apr P 1200 0
      (amortGo (apr / 100 / 12) (monthlyPaymentAmortized P apr n)
        (max 0 extraMonthly) apr P 0 1200) rfl
  simp only [amortizationSchedule]
  simp only [hmax] at h1 h2 h3 ⊢
  refine ⟨h1, ?_, ?_⟩
  · intro hlen
    have := h2 hlen
    simpa using this
  · intro j hj
    obtain ⟨a1, a2, a3, a4, a5, a6⟩ := h3 j hj
    simp only [Nat.zero_add] at a1 a3 a4 a6
    refine ⟨a1, a3, ?_, ?_, a5, a6⟩
    · intro h0
      rw [a3, h0]
      norm_num
    · rw [a3]
      exact a4

/-- C1: for valid inputs (principal > 0, apr ≥ 0, term n > 0 months,
extraMonthly ≥ 0), every row of `amortizationSchedule` computes
`interest = balance * (apr/100/12)` (exactly 0 when apr = 0),
`payment = min (basePayment + extraMonthly) (balance + interest)`,
`principalPortion = payment - interest`, and the new balance is the
old balance minus the principal portion (the claim-side recurrence
`loanBalSpec`); and the loop stops exactly when the balance is ≤ 0.01
or 1200 months have been generated. -/
theorem claim_C1 (P apr extraMonthly : ℚ) (n : ℕ)
    (hP : 0 < P) (hapr : 0 ≤ apr) (hn : 0 < n) (hextra : 0 ≤ extraMonthly)
    (r pay : ℚ) (res : AmortResult)
    (hr : r = apr / 100 / 12)
    (hpay : pay = monthlyPaymentAmortized P apr n + extraMonthly)
    (hres : res = amortizationSchedule P apr n extraMonthly) :
    res.months ≤ 1200 ∧
    (res.months < 1200 → loanBalSpec r pay P res.months ≤ 1/100) ∧
    ∀ j (hj : j < res.schedule.length),
      1/100 < loanBalSpec r pay P j ∧
      (res.schedule.get ⟨j, hj⟩).interest = loanBalSpec r pay P j * r ∧
      (apr = 0 → (res.schedule.get ⟨j, hj⟩).interest = 0) ∧
      (res.schedule.get ⟨j, hj⟩).payment =
        min pay (loanBalSpec r pay P j + (res.schedule.get ⟨j, hj⟩).interest) ∧
      (res.schedule.get ⟨j, hj⟩).principal =
        (res.schedule.get ⟨j, hj⟩).payment - (res.schedule.get ⟨j, hj⟩).interest ∧
      (res.schedule.get ⟨j, hj⟩).balance = loanBalSpec r pay P (j + 1) :=
  amortSchedule_trace P apr extraMonthly n hextra r pay res hr hpay hres

/-- Witness for C1 at principal 1000, apr 12, term 12 months, no extra
payment. -/
theorem claim_C1_witness :
    (0:ℚ) < 1000 ∧ (0:ℚ) ≤ 12 ∧ (0:ℕ) < 12 ∧ (0:ℚ) ≤ 0 ∧
    (amortizationSchedule 1000 12 12 0).months ≤ 1200 :=
  ⟨by norm_num, by norm_num, by norm_num, le_refl 0,
    (claim_C1 1000 12 0 12 (by norm_num) (by norm_num) (by norm_num) (le_refl 0)
      _ _ _ rfl rfl rfl).1⟩

theorem monthlyPayment_zero_rate (P : ℚ) (n : ℕ) :
    monthlyPaymentAmortized P 0 n = P / n := by
  norm_num [monthlyPaymentAmortized]

/-- At zero rate with constant payment `P / n`, the claim-side balance
after `m ≤ n` months is exactly `(n - m) * (P / n)`. -/
theorem loanBalSpec_zero_rate_linear (P : ℚ) (n : ℕ) (hP : 0 ≤ P) (hn : 0 < n) :
    ∀ m, m ≤ n → loanBalSpec 0 (P / n) P m = ((n - m : ℕ) : ℚ) * (P / n) := by
  intro m
  induction m with
  | zero =>
    intro _
    have : ((n : ℚ)) ≠ 0 := by positivity
    simp only [loanBalSpec, Nat.sub_zero]
    field_simp
  | succ m ihm =>
    intro hm
    have hm' : m ≤ n := Nat.le_of_succ_le hm
    have hpn : 0 ≤ P / n := div_nonneg hP (Nat.cast_nonneg n)
    have hsub : 1 ≤ n - m := by omega
    have h1 : (1:ℚ) ≤ ((n - m : ℕ) : ℚ) := by exact_mod_cast hsub
    rw [loanBalSpec_succ, ihm hm', mul_zero, add_zero,
      min_eq_left (le_mul_of_one_le_left hpn h1)]
    have e : n - (m + 1) = (n - m) - 1 := by omega
    rw [e, Nat.cast_sub hsub]
    push_cast
    ring

/-- Zero-rate, zero-extra schedule length: at most `n`, and exactly `n`
whenever the per-month payment `P / n` clears the 0.01 epsilon and `n`
does not exceed the 1200-month ceiling. -/
theorem amortSchedule_zero_rate_length (P : ℚ) (n : ℕ) (hP : 0 < P) (hn : 0 < n) :
    (amortizationSchedule P 0 n 0).months ≤ n ∧
    (1/100 * n < P → n ≤ 1200 → (amortizationSchedule P 0 n 0).months = n) := by
  obtain ⟨h1, h2, h3⟩ := amortSchedule_trace P 0 0 n le_rfl 0 (P / n)
    (amortizationSchedule P 0 n 0) (by norm_num)
    (by rw [monthlyPayment_zero_rate]; ring) rfl
  have hlen : (amortizationSchedule P 0 n 0).months =
      (amortizationSchedule P 0 n 0).schedule.length := rfl
  have hle : (amortizationSchedule P 0 n 0).months ≤ n := by
    by_contra hcon
    push_neg at hcon
    have hnlt : n < (amortizationSchedule P 0 n 0).schedule.length := by
      rw [← hlen]; exact hcon
    have := (h3 n hnlt).1
    rw [loanBalSpec_zero_rate_linear P n (le_of_lt hP) hn n (le_refl n)] at this
    simp at this
    linarith
  refine ⟨hle, ?_⟩
  intro hbig hcap
  by_contra hne
  have hlt : (amortizationSchedule P 0 n 0).months < n := lt_of_le_of_ne hle hne
  have hlt1200 : (amortizationSchedule P 0 n 0).months < 1200 := lt_of_lt_of_le hlt hcap
  have hb := h2 hlt1200
  rw [loanBalSpec_zero_rate_linear P n (le_of_lt hP) hn _ (le_of_lt hlt)] at hb
  have hsub : 1 ≤ n - (amortizationSchedule P 0 n 0).months := by omega
  have h1 : (1:ℚ) ≤ ((n - (amortizationSchedule P 0 n 0).months : ℕ) : ℚ) := by
    exact_mod_cast hsub
  have hnq : (0:ℚ) < n := by positivity
  have hpn : 1/100 < P / n := by
    rw [lt_div_iff hnq]
    linarith
  have : P / n ≤ ((n - (amortizationSchedule P 0 n 0).months : ℕ) : ℚ) * (P / n) :=
    le_mul_of_one_le_left (by positivity) h1
  linarith

/-- Unfolding: the loop produces nothing once the balance is at or
below the 0.01 epsilon. -/
theorem amortGo_nil (r base extra apr balance : ℚ) (month : ℕ)
    (h : ¬ (1/100 < balance)) :
    ∀ fuel, amortGo r base extra apr balance month fuel = [] := by
  intro fuel
  cases fuel with
  | zero => rfl
  | succ f => simp only [amortGo, if_neg h]

/-- Unfolding: one iteration of the loop while the balance exceeds the
0.01 epsilon. -/
theorem amortGo_cons (r base extra apr balance : ℚ) (month fuel : ℕ)
    (h : 1/100 < balance) :
    amortGo r base extra apr balance month (fuel + 1) =
      ⟨month + 1, min (base + extra) (balance + (if r = 0 then 0 else balance * r)),
        if r = 0 then 0 else balance * r,
        min (base + extra) (balance + (if r = 0 then 0 else balance * r)) -
          (if r = 0 then 0 else balance * r),
        max 0 (balance -
          (min (base + extra) (balance + (if r = 0 then 0 else balance * r)) -
            (if r = 0 then 0 else balance * r))), apr⟩ ::
      amortGo r base extra apr
        (balance - (min (base + extra) (balance + (if r = 0 then 0 else balance * r)) -
          (if r = 0 then 0 else balance * r))) (month + 1) fuel := by
  simp only [amortGo, if_pos h]

/-- C7 counterexample: at principal 0.01 and a 1-month zero-rate term the
schedule is empty (the loop guard `balance > 0.01` fails immediately), so
its length is 0, not the term length 1 the claim asserts. -/
theorem claim_C7_counterexample :
    (amortizationSchedule (1/100) 0 1 0).months ≠ 1 := by
  have h : (amortizationSchedule (1/100) 0 1 0).months =
      (amortGo (0/100/12) (monthlyPaymentAmortized (1/100) 0 1) (max 0 0) 0 (1/100) 0
        1200).length := rfl
  rw [h, amortGo_nil _ _ _ _ _ _ (by norm_num)]
  norm_num

/-- C7 amended: the zero-rate payment is exactly `P / n` and the
zero-rate schedule has length at most `n`; the length equals `n`
exactly under the additional conditions the counterexample forces,
namely `P > 0.01 * n` (the balance must still exceed the 0.01 epsilon
at the last scheduled month) and `n ≤ 1200` (the safety ceiling). -/
theorem claim_C7_amended (P : ℚ) (n : ℕ) (hP : 0 < P) (hn : 0 < n) :
    monthlyPaymentAmortized P 0 n = P / n ∧
    (amortizationSchedule P 0 n 0).months ≤ n ∧
    (1/100 * n < P → n ≤ 1200 → (amortizationSchedule P 0 n 0).months = n) :=
  ⟨monthlyPayment_zero_rate P n,
    (amortSchedule_zero_rate_length P n hP hn).1,
    (amortSchedule_zero_rate_length P n hP hn).2⟩

/-- Witness for the amended C7 at P = 2, n = 2. -/
theorem claim_C7_witness :
    (0:ℚ) < 2 ∧ (0:ℕ) < 2 ∧ 1/100 * ((2:ℕ) : ℚ) < 2 ∧ (2:ℕ) ≤ 1200 ∧
    monthlyPaymentAmortized 2 0 2 = 2 / 2 ∧
    (amortizationSchedule 2 0 2 0).months = 2 :=
  ⟨by norm_num, by norm_num, by norm_num, by norm_num,
    (claim_C7_amended 2 2 (by norm_num) (by norm_num)).1,
    (claim_C7_amended 2 2 (by norm_num) (by norm_num)).2.2 (by norm_num) (by norm_num)⟩

/-- The balance passed to the next iteration, in closed `max` form. -/
theorem amortGo_step_balance (r pay b : ℚ) :
    b - (min pay (b + (if r = 0 then 0 else b * r)) -
      (if r = 0 then 0 else b * r)) = max (b * (1 + r) - pay) 0 := by
  rw [interest_branch]
  have h := step_max_form pay (b + b * r)
  have e : b - (min pay (b + b * r) - b * r) = b + b * r - min pay (b + b * r) := by ring
  rw [e, h]
  ring_nf

/-- Larger payments and smaller balances never lengthen the schedule. -/
theorem amortGo_length_anti (r apr base : ℚ) (hr : 0 ≤ r) :
    ∀ (fuel : ℕ) (m1 m2 : ℕ) (b1 b2 eHi eLo : ℚ), b1 ≤ b2 → eLo ≤ eHi →
      (amortGo r base eHi apr b1 m1 fuel).length ≤
        (amortGo r base eLo apr b2 m2 fuel).length := by
  intro fuel
  induction fuel with
  | zero => intro m1 m2 b1 b2 eHi eLo _ _; simp [amortGo]
  | succ f ih =>
    intro m1 m2 b1 b2 eHi eLo hb he
    by_cases h1 : (1:ℚ)/100 < b1
    · have h2 : (1:ℚ)/100 < b2 := lt_of_lt_of_le h1 hb
      rw [amortGo_cons _ _ _ _ _ _ _ h1, amortGo_cons _ _ _ _ _ _ _ h2]
      simp only [List.length_cons]
      have hstep : b1 - (min (base + eHi) (b1 + (if r = 0 then 0 else b1 * r)) -
            (if r = 0 then 0 else b1 * r)) ≤
          b2 - (min (base + eLo) (b2 + (if r = 0 then 0 else b2 * r)) -
            (if r = 0 then 0 else b2 * r)) := by
        rw [amortGo_step_balance, amortGo_step_balance]
        refine max_le_max ?_ le_rfl
        have : b1 * (1 + r) ≤ b2 * (1 + r) :=
          mul_le_mul_of_nonneg_right hb (by linarith)
        linarith
      exact Nat.succ_le_succ (ih (m1+1) (m2+1) _ _ eHi eLo hstep he)
    · rw [amortGo_nil _ _ _ _ _ _ h1]
      simp

/-- The interest column of a schedule. -/
def interestSum (L : List Row) : ℚ := (L.map (·.interest)).sum

theorem amortGo_interestSum_nonneg (r apr base extra : ℚ) (hr : 0 ≤ r) :
    ∀ (fuel m : ℕ) (b : ℚ), 0 ≤ b →
      0 ≤ interestSum (amortGo r base extra apr b m fuel) := by
  intro fuel
  induction fuel with
  | zero => intro m b _; simp [amortGo, interestSum]
  | succ f ih =>
    intro m b hb
    by_cases h1 : (1:ℚ)/100 < b
    · rw [amortGo_cons _ _ _ _ _ _ _ h1]
      simp only [interestSum, List.map_cons, List.sum_cons]
      have hhead : 0 ≤ (if r = 0 then 0 else b * r) := by
        rw [interest_branch]; exact mul_nonneg hb hr
      have htail := ih (m+1)
        (b - (min (base + extra) (b + (if r = 0 then 0 else b * r)) -
          (if r = 0 then 0 else b * r)))
        (by rw [amortGo_step_balance]; exact le_max_right _ _)
      simpa [interestSum] using add_nonneg hhead htail
    · rw [amortGo_nil _ _ _ _ _ _ h1]
      simp [interestSum]

/-- Larger payments and smaller balances never increase accumulated
interest. -/
theorem amortGo_interestSum_anti (r apr base : ℚ) (hr : 0 ≤ r) :
    ∀ (fuel : ℕ) (m1 m2 : ℕ) (b1 b2 eHi eLo : ℚ),
      0 ≤ b1 → b1 ≤ b2 → eLo ≤ eHi →
      interestSum (amortGo r base eHi apr b1 m1 fuel) ≤
        interestSum (amortGo r base eLo apr b2 m2 fuel) := by
  intro fuel
  induction fuel with
  | zero => intro m1 m2 b1 b2 eHi eLo _ _ _; simp [amortGo, interestSum]
  | succ f ih =>
    intro m1 m2 b1 b2 eHi eLo hb0 hb he
    by_cases h1 : (1:ℚ)/100 < b1
    · have h2 : (1:ℚ)/100 < b2 := lt_of_lt_of_le h1 hb
      rw [amortGo_cons _ _ _ _ _ _ _ h1, amortGo_cons _ _ _ _ _ _ _ h2]
      simp only [interestSum, List.map_cons, List.sum_cons]
      have hhead : (if r = 0 then 0 else b1 * r) ≤ (if r = 0 then 0 else b2 * r) := by
        rw [interest_branch, interest_branch]
        exact mul_le_mul_of_nonneg_right hb hr
      have hstep1 : (0:ℚ) ≤ b1 - (min (base + eHi) (b1 + (if r = 0 then 0 else b1 * r)) -
          (if r = 0 then 0 else b1 * r)) := by
        rw [amortGo_step_balance]; exact le_max_right _ _
      have hstep : b1 - (min (base + eHi) (b1 + (if r = 0 then 0 else b1 * r)) -
            (if r = 0 then 0 else b1 * r)) ≤
          b2 - (min (base + eLo) (b2 + (if r = 0 then 0 else b2 * r)) -
            (if r = 0 then 0 else b2 * r)) := by
        rw [amortGo_step_balance, amortGo_step_balance]
        refine max_le_max ?_ le_rfl
        have : b1 * (1 + r) ≤ b2 * (1 + r) :=
          mul_le_mul_of_nonneg_right hb (by linarith)
        linarith
      have htail := ih (m1+1) (m2+1) _ _ eHi eLo hstep1 hstep he
      simp only [interestSum] at htail
      linarith
    · rw [amortGo_nil _ _ _ _ _ _ h1]
      have := amortGo_interestSum_nonneg r apr base eLo hr (f+1) m2 b2 (le_trans hb0 hb)
      simpa [interestSum] using this

/-- At zero rate, a schedule accrues no interest at all, whatever the
extra payment. -/
theorem amortSchedule_zero_rate_interest (P e : ℚ) (n : ℕ) (he : 0 ≤ e) :
    (amortizationSchedule P 0 n e).totalInterest = 0 := by
  obtain ⟨h1, h2, h3⟩ := amortSchedule_trace P 0 e n he 0
    (monthlyPaymentAmortized P 0 n + e) (amortizationSchedule P 0 n e)
    (by norm_num) rfl rfl
  have hall : ∀ x ∈ ((amortizationSchedule P 0 n e).schedule.map (·.interest)), x = 0 := by
    intro x hx
    rw [List.mem_map] at hx
    obtain ⟨row, hrow, hxe⟩ := hx
    rw [List.mem_iff_get] at hrow
    obtain ⟨⟨j, hj⟩, hget⟩ := hrow
    have hint := (h3 j hj).2.1
    rw [← hxe, ← hget, hint, mul_zero]
  have hti : (amortizationSchedule P 0 n e).totalInterest =
      ((amortizationSchedule P 0 n e).schedule.map (·.interest)).sum := rfl
  rw [hti]
  exact List.sum_eq_zero hall

/-- At P = 100, zero rate, 2-month term and extra payment 10, the loan
still takes exactly 2 months (the extra shrinks only the final
payment). -/
theorem amortSchedule_100_extra10_months :
    (amortizationSchedule 100 0 2 10).months = 2 := by
  obtain ⟨h1, h2, h3⟩ := amortSchedule_trace 100 0 10 2 (by norm_num) 0 60
    (amortizationSchedule 100 0 2 10) (by norm_num)
    (by rw [monthlyPayment_zero_rate]; norm_num) rfl
  have hb0 : loanBalSpec 0 60 100 0 = 100 := rfl
  have hb1 : loanBalSpec 0 60 100 1 = 40 := by
    rw [show (1:ℕ) = 0 + 1 from rfl, loanBalSpec_succ, hb0]
    norm_num [min_def]
  have hb2 : loanBalSpec 0 60 100 2 = 0 := by
    rw [show (2:ℕ) = 1 + 1 from rfl, loanBalSpec_succ, hb1]
    norm_num [min_def]
  have hlen : (amortizationSchedule 100 0 2 10).months =
      (amortizationSchedule 100 0 2 10).schedule.length := rfl
  have hle : (amortizationSchedule 100 0 2 10).months ≤ 2 := by
    by_contra hcon
    push_neg at hcon
    have h2lt : 2 < (amortizationSchedule 100 0 2 10).schedule.length := by
      rw [← hlen]; exact hcon
    have := (h3 2 h2lt).1
    rw [hb2] at this
    norm_num at this
  have hge : 2 ≤ (amortizationSchedule 100 0 2 10).months := by
    by_contra hcon
    push_neg at hcon
    have hlt : (amortizationSchedule 100 0 2 10).months < 1200 := by omega
    have hble := h2 hlt
    have hcases : (amortizationSchedule 100 0 2 10).months = 0 ∨
        (amortizationSchedule 100 0 2 10).months = 1 := by omega
    rcases hcases with h | h <;> rw [h] at hble
    · rw [hb0] at hble; norm_num at hble
    · rw [hb1] at hble; norm_num at hble
  omega

/-- C8 counterexample: with P = 100, apr = 0, n = 2, raising the extra
payment from 0 to 10 changes neither `totalInterest` (0 at zero rate)
nor the schedule length (2 months), although the length is not the
minimum 1 the claim allows as the only exception. -/
theorem claim_C8_counterexample :
    (0:ℚ) < 10 ∧
    (amortizationSchedule 100 0 2 10).totalInterest =
      (amortizationSchedule 100 0 2 0).totalInterest ∧
    (amortizationSchedule 100 0 2 10).months =
      (amortizationSchedule 100 0 2 0).months ∧
    (amortizationSchedule 100 0 2 0).months = 2 := by
  have he0 : (amortizationSchedule 100 0 2 0).months = 2 :=
    (amortSchedule_zero_rate_length 100 2 (by norm_num) (by norm_num)).2
      (by norm_num) (by norm_num)
  refine ⟨by norm_num, ?_, ?_, he0⟩
  · rw [amortSchedule_zero_rate_interest 100 10 2 (by norm_num),
      amortSchedule_zero_rate_interest 100 0 2 (by norm_num)]
  · rw [amortSchedule_100_extra10_months, he0]

/-- C8 amended: for fixed principal, rate and term, a larger extra
payment gives totals that are monotone the right way, but only weakly:
`totalInterest` and the schedule length never increase (strictness
fails, e.g. at zero rate, even for schedules longer than one month). -/
theorem claim_C8_amended (P apr e1 e2 : ℚ) (n : ℕ)
    (hP : 0 < P) (hapr : 0 ≤ apr) (hn : 0 < n) (h12 : e1 ≤ e2) :
    (amortizationSchedule P apr n e2).totalInterest ≤
      (amortizationSchedule P apr n e1).totalInterest ∧
    (amortizationSchedule P apr n e2).months ≤
      (amortizationSchedule P apr n e1).months := by
  have hr : (0:ℚ) ≤ apr / 100 / 12 := by positivity
  have he : max 0 e1 ≤ max 0 e2 := max_le_max le_rfl h12
  constructor
  · have h := amortGo_interestSum_anti (apr/100/12) apr
      (monthlyPaymentAmortized P apr n) hr
      1200 0 0 P P (max 0 e2) (max 0 e1) (le_of_lt hP) le_rfl he
    simpa [interestSum, amortizationSchedule] using h
  · have h := amortGo_length_anti (apr/100/12) apr
      (monthlyPaymentAmortized P apr n) hr
      1200 0 0 P P (max 0 e2) (max 0 e1) le_rfl he
    simpa [amortizationSchedule] using h

/-- Witness for the amended C8 at P = 100, apr = 0, n = 2, extras 0 and
10. -/
theorem claim_C8_witness :
    (0:ℚ) < 100 ∧ (0:ℚ) ≤ 0 ∧ (0:ℕ) < 2 ∧ (0:ℚ) ≤ 10 ∧
    (amortizationSchedule 100 0 2 10).totalInterest ≤
      (amortizationSchedule 100 0 2 0).totalInterest ∧
    (amortizationSchedule 100 0 2 10).months ≤
      (amortizationSchedule 100 0 2 0).months :=
  ⟨by norm_num, le_refl 0, by norm_num, by norm_num,
    (claim_C8_amended 100 0 0 10 2 (by norm_num) (le_refl 0) (by norm_num)
      (by norm_num)).1,
    (claim_C8_amended 100 0 0 10 2 (by norm_num) (le_refl 0) (by norm_num)
      (by norm_num)).2⟩

/-- Result record of `simulateStressAmortized`. -/
structure StressResult where
  schedule : List Row
  totalInterest : ℚ
  payoffMonths : ℕ
  endedEarly : Bool

/-- The in-loop rate/payment update of `simulateStressAmortized`
(src/app.js lines 796-801): if the rate path defines a rate for month
`m` (`pathEntry != null`) and it differs from `currentApr`
(`pathEntry !== currentApr`), adopt it and recompute the payment over
`Math.max(1, totalMonths - (month - 1))` remaining months; otherwise
keep the current rate and payment. -/
def stressRateUpdate (ratePath : ℕ → Option ℚ) (totalMonths : ℕ)
    (balance currentApr currentPayment : ℚ) (m : ℕ) : ℚ × ℚ :=
  match ratePath m with
  | some v =>
    if v ≠ currentApr then
      (v, monthlyPaymentAmortized balance v (max 1 (totalMonths - (m - 1))))
    else (currentApr, currentPayment)
  | none => (currentApr, currentPayment)

/-- Loop body of `simulateStressAmortized` (src/app.js line 781): the
rate path is a `Map` lookup (`none` models a missing month); the
rate/payment reset is `stressRateUpdate`; `fuel` is the remaining
allowance of `month < MAX_MONTHS`. -/
def stressGo (ratePath : ℕ → Option ℚ) (totalMonths stopM : ℕ) (extra : ℚ)
    (balance currentApr currentPayment : ℚ) (month : ℕ) : ℕ → List Row
  | 0 => []
  | fuel + 1 =>
    if 1/100 < balance ∧ month < stopM then
      let m := month + 1
      let upd := stressRateUpdate ratePath totalMonths balance currentApr
        currentPayment m
      let r := upd.1 / 100 / 12
      let interest := if r = 0 then 0 else balance * r
      let payment := min (upd.2 + max 0 extra) (balance + interest)
      let principalPaid := payment - interest
      let newBal := balance - principalPaid
      ⟨m, payment, interest, principalPaid, max 0 newBal, upd.1⟩ ::
        stressGo ratePath totalMonths stopM extra newBal upd.1 upd.2 m fuel
    else []

/-- The loop bound `stopM = stopAfterMonths ? Math.min(totalMonths,
stopAfterMonths) : totalMonths` — under JS truthiness `null` and `0`
both fall back to `totalMonths`. -/
def stopMOf (totalMonths : ℕ) : Option ℕ → ℕ
  | none => totalMonths
  | some s => if s = 0 then totalMonths else min totalMonths s

/-- src/app.js `simulateStressAmortized(P0, termYears, baseApr,
extraMonthly, ratePath, stopAfterMonths)`, parametrised by
`totalMonths = round(termYears * 12)`.  After the loop the running
balance equals the last stored row balance (stored balances are never
clamped in practice), so `endedEarly` reads it back from the
schedule. -/
def simulateStressAmortized (P0 : ℚ) (totalMonths : ℕ) (baseApr extraMonthly : ℚ)
    (ratePath : ℕ → Option ℚ) (stopAfterMonths : Option ℕ) : StressResult :=
  let stopM := stopMOf totalMonths stopAfterMonths
  let currentPayment := monthlyPaymentAmortized P0 baseApr totalMonths
  let sched := stressGo ratePath totalMonths stopM extraMonthly P0 baseApr
    currentPayment 0 1200
  let finalBalance := ((sched.getLast?).map (·.balance)).getD P0
  { schedule := sched
    totalInterest := (sched.map (·.interest)).sum
    payoffMonths := sched.length
    endedEarly := match stopAfterMonths with
      | none => false
      | some s => decide (s ≤ sched.length) && decide (1/100 < finalBalance) }

/-- Claim-side invariant: each payment splits exactly into its interest
and principal portions. -/
def paymentSplits : List Row → Prop
  | [] => True
  | row :: rest => row.payment = row.interest + row.principal ∧ paymentSplits rest

/-- Claim-side invariant: each ending balance is
`max 0 (startingBalance - principalPortion)`, the starting balance of a
row being the previous row's ending balance (`b0` at the head). -/
def chainedBalances (b0 : ℚ) : List Row → Prop
  | [] => True
  | row :: rest => row.balance = max 0 (b0 - row.principal) ∧
      chainedBalances row.balance rest

/-- Claim-side invariant: stored balances are never negative. -/
def balancesNonneg : List Row → Prop
  | [] => True
  | row :: rest => 0 ≤ row.balance ∧ balancesNonneg rest

/-- Claim-side invariant: month numbers are consecutive from `m0 + 1`. -/
def monthsFrom (m0 : ℕ) : List Row → Prop
  | [] => True
  | row :: rest => row.month = m0 + 1 ∧ monthsFrom row.month rest

theorem step_nonneg (r pay b : ℚ) :
    0 ≤ b - (min pay (b + (if r = 0 then 0 else b * r)) -
      (if r = 0 then 0 else b * r)) := by
  rw [amortGo_step_balance]
  exact le_max_right _ _

theorem amortGo_invariants (r base extra apr : ℚ) :
    ∀ (fuel : ℕ) (b : ℚ) (m : ℕ),
      paymentSplits (amortGo r base extra apr b m fuel) ∧
      chainedBalances b (amortGo r base extra apr b m fuel) ∧
      balancesNonneg (amortGo r base extra apr b m fuel) ∧
      monthsFrom m (amortGo r base extra apr b m fuel) := by
  intro fuel
  induction fuel with
  | zero =>
    intro b m
    exact ⟨trivial, trivial, trivial, trivial⟩
  | succ f ih =>
    intro b m
    by_cases h : (1:ℚ)/100 < b
    · rw [amortGo_cons _ _ _ _ _ _ _ h]
      obtain ⟨ih1, ih2, ih3, ih4⟩ := ih
        (b - (min (base + extra) (b + (if r = 0 then 0 else b * r)) -
          (if r = 0 then 0 else b * r))) (m + 1)
      refine ⟨⟨by ring, ih1⟩, ⟨rfl, ?_⟩, ⟨le_max_left _ _, ih3⟩, ⟨rfl, ih4⟩⟩
      rw [max_eq_self_of_nonneg (step_nonneg r (base + extra) b)]
      exact ih2
    · rw [amortGo_nil _ _ _ _ _ _ h]
      exact ⟨trivial, trivial, trivial, trivial⟩

theorem stressGo_invariants (rp : ℕ → Option ℚ) (tm stopM : ℕ) (extra : ℚ) :
    ∀ (fuel : ℕ) (b apr pay : ℚ) (m : ℕ),
      paymentSplits (stressGo rp tm stopM extra b apr pay m fuel) ∧
      chainedBalances b (stressGo rp tm stopM extra b apr pay m fuel) ∧
      balancesNonneg (stressGo rp tm stopM extra b apr pay m fuel) ∧
      monthsFrom m (stressGo rp tm stopM extra b apr pay m fuel) := by
  intro fuel
  induction fuel with
  | zero =>
    intro b apr pay m
    exact ⟨trivial, trivial, trivial, trivial⟩
  | succ f ih =>
    intro b apr pay m
    by_cases h : (1:ℚ)/100 < b ∧ m < stopM
    · simp only [stressGo, if_pos h]
      refine ⟨⟨by ring, (ih _ _ _ _).1⟩, ⟨rfl, ?_⟩,
        ⟨le_max_left _ _, (ih _ _ _ _).2.2.1⟩, ⟨rfl, (ih _ _ _ _).2.2.2⟩⟩
      rw [max_eq_self_of_nonneg (step_nonneg _ _ _)]
      exact (ih _ _ _ _).2.1
    · simp only [stressGo, if_neg h]
      exact ⟨trivial, trivial, trivial, trivial⟩

/-- C6: every row of every schedule produced by `amortizationSchedule`
and by `simulateStressAmortized` satisfies
`payment = interestPortion + principalPortion` (exactly, over ℚ),
`endingBalance = max 0 (startingBalance - principalPortion)` with the
starting balance chained from the previous row (the principal at the
head), every stored balance is ≥ 0, and the month fields are exactly
1, 2, 3, ... in order. -/
theorem claim_C6 :
    (∀ (P apr e : ℚ) (n : ℕ),
      paymentSplits (amortizationSchedule P apr n e).schedule ∧
      chainedBalances P (amortizationSchedule P apr n e).schedule ∧
      balancesNonneg (amortizationSchedule P apr n e).schedule ∧
      monthsFrom 0 (amortizationSchedule P apr n e).schedule) ∧
    (∀ (P0 baseApr e : ℚ) (tm : ℕ) (rp : ℕ → Option ℚ) (stop : Option ℕ),
      paymentSplits (simulateStressAmortized P0 tm baseApr e rp stop).schedule ∧
      chainedBalances P0 (simulateStressAmortized P0 tm baseApr e rp stop).schedule ∧
      balancesNonneg (simulateStressAmortized P0 tm baseApr e rp stop).schedule ∧
      monthsFrom 0 (simulateStressAmortized P0 tm baseApr e rp stop).schedule) := by
  constructor
  · intro P apr e n
    exact amortGo_invariants _ _ _ _ 1200 P 0
  · intro P0 baseApr e tm rp stop
    exact stressGo_invariants _ _ _ _ 1200 P0 _ _ 0

/-- Claim-side state of the variable-rate simulator after `m` months:
(outstanding balance, rate in effect, scheduled payment).  Written from
the specification: whenever the rate curve defines a rate for the
month that differs from the rate in effect, the scheduled payment is
recomputed as the standard annuity payment amortizing the current
outstanding balance over the remaining `max 1 (termMonths - (m - 1))`
months at the new rate; in all other months rate and payment are kept;
then the month's interest/payment/balance step is applied. -/
def stressStateSpec (rp : ℕ → Option ℚ) (tm : ℕ) (extra P0 baseApr : ℚ) :
    ℕ → ℚ × ℚ × ℚ
  | 0 => (P0, baseApr, monthlyPaymentAmortized P0 baseApr tm)
  | m + 1 =>
    let s := stressStateSpec rp tm extra P0 baseApr m
    let upd : ℚ × ℚ :=
      match rp (m + 1) with
      | some v =>
        if v ≠ s.2.1 then
          (v, monthlyPaymentAmortized s.1 v (max 1 (tm - (m + 1 - 1))))
        else (s.2.1, s.2.2)
      | none => (s.2.1, s.2.2)
    let r := upd.1 / 100 / 12
    let payment := min (upd.2 + max 0 extra) (s.1 + s.1 * r)
    (s.1 + s.1 * r - payment, upd.1, upd.2)

theorem stressStateSpec_succ_nonneg (rp : ℕ → Option ℚ) (tm : ℕ)
    (extra P0 baseApr : ℚ) (m : ℕ) :
    0 ≤ (stressStateSpec rp tm extra P0 baseApr (m + 1)).1 := by
  have h : (stressStateSpec rp tm extra P0 baseApr (m + 1)).1 =
      (stressStateSpec rp tm extra P0 baseApr m).1 +
        (stressStateSpec rp tm extra P0 baseApr m).1 *
          ((stressStateSpec rp tm extra P0 baseApr (m + 1)).2.1 / 100 / 12) -
      min ((stressStateSpec rp tm extra P0 baseApr (m + 1)).2.2 + max 0 extra)
        ((stressStateSpec rp tm extra P0 baseApr m).1 +
          (stressStateSpec rp tm extra P0 baseApr m).1 *
            ((stressStateSpec rp tm extra P0 baseApr (m + 1)).2.1 / 100 / 12)) := rfl
  rw [h, step_max_form]
  exact le_max_right _ _

theorem stress_newbal (b e u1 u2 : ℚ) :
    b - (min (u2 + max 0 e)
        (b + (if u1 / 100 / 12 = 0 then 0 else b * (u1 / 100 / 12))) -
      (if u1 / 100 / 12 = 0 then 0 else b * (u1 / 100 / 12))) =
    b + b * (u1 / 100 / 12) -
      min (u2 + max 0 e) (b + b * (u1 / 100 / 12)) := by
  rw [interest_branch]
  ring

/-- Correspondence between the `simulateStressAmortized` loop and the
claim-side state recurrence `stressStateSpec`: each row carries the
rate adopted by the reset rule for its month, the payment scheduled by
that rule (clamped at balance + interest), and the resulting balance. -/
theorem stressGo_trace (rp : ℕ → Option ℚ) (tm stopM : ℕ) (extra P0 baseApr : ℚ) :
    ∀ (fuel k : ℕ) (L : List Row),
      L = stressGo rp tm stopM extra
        (stressStateSpec rp tm extra P0 baseApr k).1
        (stressStateSpec rp tm extra P0 baseApr k).2.1
        (stressStateSpec rp tm extra P0 baseApr k).2.2 k fuel →
      ∀ j (hj : j < L.length),
        (L.get ⟨j, hj⟩).apr = (stressStateSpec rp tm extra P0 baseApr (k+j+1)).2.1 ∧
        (L.get ⟨j, hj⟩).payment =
          min ((stressStateSpec rp tm extra P0 baseApr (k+j+1)).2.2 + max 0 extra)
            ((stressStateSpec rp tm extra P0 baseApr (k+j)).1 +
              (stressStateSpec rp tm extra P0 baseApr (k+j)).1 *
                ((stressStateSpec rp tm extra P0 baseApr (k+j+1)).2.1 / 100 / 12)) ∧
        (L.get ⟨j, hj⟩).balance = (stressStateSpec rp tm extra P0 baseApr (k+j+1)).1 := by
  intro fuel
  induction fuel with
  | zero =>
    intro k L hL
    subst hL
    intro j hj
    simp [stressGo] at hj
  | succ f ih =>
    intro k L hL
    by_cases hc : (1:ℚ)/100 < (stressStateSpec rp tm extra P0 baseApr k).1 ∧ k < stopM
    · simp only [stressGo, if_pos hc] at hL
      rw [stress_newbal] at hL
      have e1 : (stressRateUpdate rp tm (stressStateSpec rp tm extra P0 baseApr k).1
          (stressStateSpec rp tm extra P0 baseApr k).2.1
          (stressStateSpec rp tm extra P0 baseApr k).2.2 (k+1)).1 =
          (stressStateSpec rp tm extra P0 baseApr (k+1)).2.1 := rfl
      have e2 : (stressRateUpdate rp tm (stressStateSpec rp tm extra P0 baseApr k).1
          (stressStateSpec rp tm extra P0 baseApr k).2.1
          (stressStateSpec rp tm extra P0 baseApr k).2.2 (k+1)).2 =
          (stressStateSpec rp tm extra P0 baseApr (k+1)).2.2 := rfl
      rw [e1, e2] at hL
      have e3 : (stressStateSpec rp tm extra P0 baseApr (k+1)).1 =
          (stressStateSpec rp tm extra P0 baseApr k).1 +
            (stressStateSpec rp tm extra P0 baseApr k).1 *
              ((stressStateSpec rp tm extra P0 baseApr (k+1)).2.1 / 100 / 12) -
          min ((stressStateSpec rp tm extra P0 baseApr (k+1)).2.2 + max 0 extra)
            ((stressStateSpec rp tm extra P0 baseApr k).1 +
              (stressStateSpec rp tm extra P0 baseApr k).1 *
                ((stressStateSpec rp tm extra P0 baseApr (k+1)).2.1 / 100 / 12)) := rfl
      rw [← e3] at hL
      subst hL
      intro j hj
      match j with
      | 0 =>
        refine ⟨rfl, ?_, ?_⟩
        · rw [interest_branch]
          exact rfl
        · exact max_eq_self_of_nonneg (stressStateSpec_succ_nonneg rp tm extra P0 baseApr k)
      | j' + 1 =>
        have hj' : j' < (stressGo rp tm stopM extra
            (stressStateSpec rp tm extra P0 baseApr (k+1)).1
            (stressStateSpec rp tm extra P0 baseApr (k+1)).2.1
            (stressStateSpec rp tm extra P0 baseApr (k+1)).2.2 (k+1) f).length := by
          simpa using Nat.lt_of_succ_lt_succ hj
        obtain ⟨a1, a2, a3⟩ := ih (k+1) _ rfl j' hj'
        have hsh : k + 1 + j' = k + (j' + 1) := by omega
        rw [hsh] at a1 a2 a3
        exact ⟨a1, a2, a3⟩
    · simp only [stressGo, if_neg hc] at hL
      subst hL
      intro j hj
      simp at hj

/-- C2: each row of the variable-rate simulator carries exactly the
state of the claim-side recurrence `stressStateSpec`, whose payment
rule is: whenever the rate curve defines a rate for the month that
differs from the rate in effect, the payment is re-amortized over the
remaining `max 1 (termMonths - (m - 1))` months at the new rate from
the current outstanding balance; in all other months (no entry, or an
entry equal to the rate in effect) rate and payment are kept. -/
theorem claim_C2 (P0 baseApr extra : ℚ) (tm : ℕ) (rp : ℕ → Option ℚ)
    (stop : Option ℕ) (S : ℕ → ℚ × ℚ × ℚ)
    (hS : S = stressStateSpec rp tm extra P0 baseApr) :
    (∀ j (hj : j < (simulateStressAmortized P0 tm baseApr extra rp stop).schedule.length),
      ((simulateStressAmortized P0 tm baseApr extra rp stop).schedule.get ⟨j, hj⟩).apr
        = (S (j+1)).2.1 ∧
      ((simulateStressAmortized P0 tm baseApr extra rp stop).schedule.get ⟨j, hj⟩).payment
        = min ((S (j+1)).2.2 + max 0 extra)
            ((S j).1 + (S j).1 * ((S (j+1)).2.1 / 100 / 12)) ∧
      ((simulateStressAmortized P0 tm baseApr extra rp stop).schedule.get ⟨j, hj⟩).balance
        = (S (j+1)).1) ∧
    (∀ m, rp (m+1) = none →
      (S (m+1)).2.1 = (S m).2.1 ∧ (S (m+1)).2.2 = (S m).2.2) ∧
    (∀ m v, rp (m+1) = some v → v ≠ (S m).2.1 →
      (S (m+1)).2.1 = v ∧
      (S (m+1)).2.2 = monthlyPaymentAmortized (S m).1 v (max 1 (tm - m))) ∧
    (∀ m v, rp (m+1) = some v → v = (S m).2.1 →
      (S (m+1)).2.1 = (S m).2.1 ∧ (S (m+1)).2.2 = (S m).2.2) := by
  subst hS
  refine ⟨?_, ?_, ?_, ?_⟩
  · intro j hj
    have h := stressGo_trace rp tm (stopMOf tm stop) extra P0 baseApr 1200 0
      (simulateStressAmortized P0 tm baseApr extra rp stop).schedule rfl j hj
    simpa using h
  · intro m h
    simp [stressStateSpec, h]
  · intro m v h hv
    simp only [stressStateSpec, h]
    rw [if_pos hv]
    simp
  · intro m v h hv
    simp only [stressStateSpec, h]
    rw [if_neg (by simp [hv])]
    simp

/-- Witness for C2: with an empty rate path (no entry any month) the
rate and payment in effect never change from their initial values. -/
theorem claim_C2_witness :
    (stressStateSpec (fun _ => none) 12 0 100 6 1).2.1 =
      (stressStateSpec (fun _ => none) 12 0 100 6 0).2.1 ∧
    (stressStateSpec (fun _ => none) 12 0 100 6 1).2.2 =
      (stressStateSpec (fun _ => none) 12 0 100 6 0).2.2 :=
  (claim_C2 100 6 0 12 (fun _ => none) none _ rfl).2.1 0 rfl

/-- src/app.js `riskScoreFromJump(startPayment, worstPayment)` (line
759), modelled by its `score` string; the accompanying display `label`
(a `toFixed` percent string) is presentation only and not modelled. -/
def riskScoreFromJump (startPayment worstPayment : ℚ) : String :=
  if ¬(0 < startPayment ∧ 0 < worstPayment) then "—"
  else
    let jump := (worstPayment - startPayment) / startPayment
    if jump ≤ 1/10 then "Low"
    else if jump ≤ 1/4 then "Medium"
    else "High"

/-- Claim-side classifier from the specification: four labels with
lower-inclusive bands at 10%, 25% and 45%. -/
def riskLabelSpec (jump : ℚ) : String :=
  if jump ≤ 1/10 then "Low"
  else if jump ≤ 1/4 then "Moderate"
  else if jump ≤ 9/20 then "High"
  else "Severe"

/-- C3 counterexample: the code has three labels, not four.  At a jump
of +100% the code classifies "High" where the claim requires "Severe";
at +20% it classifies "Medium" where the claim requires "Moderate". -/
theorem claim_C3_counterexample :
    riskScoreFromJump 100 200 = "High" ∧
    riskLabelSpec ((200 - 100) / 100) = "Severe" ∧
    ("High" : String) ≠ "Severe" ∧
    riskScoreFromJump 100 120 = "Medium" ∧
    riskLabelSpec ((120 - 100) / 100) = "Moderate" ∧
    ("Medium" : String) ≠ "Moderate" := by
  refine ⟨?_, ?_, by decide, ?_, ?_, by decide⟩
  · norm_num [riskScoreFromJump]
  · norm_num [riskLabelSpec]
  · norm_num [riskScoreFromJump]
  · norm_num [riskLabelSpec]

/-- C3 amended: for positive start and worst payments the code
classifies the relative jump into exactly three labels with
lower-inclusive bands: jump ≤ 10% gives "Low" (so exactly +10% is
Low), 10% < jump ≤ 25% gives "Medium", and any larger jump gives
"High"; the spec labels "Moderate"/"Severe" and the 45% threshold do
not exist in this function. -/
theorem claim_C3_amended (s w : ℚ) (hs : 0 < s) (hw : 0 < w)
    (jump : ℚ) (hj : jump = (w - s) / s) :
    (riskScoreFromJump s w = "Low" ↔ jump ≤ 1/10) ∧
    (riskScoreFromJump s w = "Medium" ↔ 1/10 < jump ∧ jump ≤ 1/4) ∧
    (riskScoreFromJump s w = "High" ↔ 1/4 < jump) := by
  subst hj
  have hcond : ¬¬(0 < s ∧ 0 < w) := not_not_intro ⟨hs, hw⟩
  simp only [riskScoreFromJump, if_neg hcond]
  rcases le_or_lt ((w - s) / s) (1/10) with h1 | h1
  · rw [if_pos h1]
    refine ⟨⟨fun _ => h1, fun _ => rfl⟩, ?_, ?_⟩
    · constructor
      · intro hc
        exact absurd hc (by decide)
      · rintro ⟨h10, _⟩
        linarith
    · constructor
      · intro hc
        exact absurd hc (by decide)
      · intro h4
        linarith
  · rw [if_neg (not_le.mpr h1)]
    rcases le_or_lt ((w - s) / s) (1/4) with h2 | h2
    · rw [if_pos h2]
      refine ⟨?_, ⟨fun _ => ⟨h1, h2⟩, fun _ => rfl⟩, ?_⟩
      · constructor
        · intro hc
          exact absurd hc (by decide)
        · intro h10
          linarith
      · constructor
        · intro hc
          exact absurd hc (by decide)
        · intro h4
          linarith
    · rw [if_neg (not_le.mpr h2)]
      refine ⟨?_, ?_, ⟨fun _ => h2, fun _ => rfl⟩⟩
      · constructor
        · intro hc
          exact absurd hc (by decide)
        · intro h10
          linarith
      · constructor
        · intro hc
          exact absurd hc (by decide)
        · rintro ⟨_, h4⟩
          linarith

/-- Witness for the amended C3 at start 100, worst 110: a jump of
exactly +10% classifies as "Low" (lower-inclusive boundary). -/
theorem claim_C3_witness :
    (0:ℚ) < 100 ∧ (0:ℚ) < 110 ∧ riskScoreFromJump 100 110 = "Low" :=
  ⟨by norm_num, by norm_num,
    (claim_C3_amended 100 110 (by norm_num) (by norm_num) _ rfl).1.mpr
      (by norm_num)⟩

/-- Result record of `creditCardSim` (src/app.js line 698). -/
structure CCOutcome where
  months : ℕ
  totalInterest : ℚ
  totalPaid : ℚ
  paidOff : Bool

/-- Loop body of `creditCardSim`: `fuel` is the remaining allowance of
`months < MAX_MONTHS`; the result is the final (balance, months,
totalInterest) triple.  The early break `months > 3 &&
payment <= interest + 0.01` returns the state after the month just
simulated. -/
def ccGo (r : ℚ) (mode : String) (fixedPayment : ℚ) (b : ℚ) (months : ℕ)
    (totInt : ℚ) : ℕ → ℚ × ℕ × ℚ
  | 0 => (b, months, totInt)
  | fuel + 1 =>
    if 1/100 < b then
      let interest := b * r
      let totInt' := totInt + interest
      let payment0 := if mode = "fixed" then fixedPayment
        else max (max (2/100 * b) 25) (interest + 1)
      let payment := min payment0 (b + interest)
      let b' := b + interest - payment
      let months' := months + 1
      if 3 < months' ∧ payment ≤ interest + 1/100 then (b', months', totInt')
      else ccGo r mode fixedPayment b' months' totInt' fuel
    else (b, months, totInt)

/-- src/app.js `creditCardSim(balance, aprPercent, mode, fixedPayment)`
(the later declaration, line 698; the two copies are identical):
`totalPaid = balance + totalInterest` and `paidOff = (b <= 0.01)` on
the final balance. -/
def creditCardSim (balance aprPercent : ℚ) (mode : String)
    (fixedPayment : ℚ) : CCOutcome :=
  let monthlyRate := aprPercent / 100 / 12
  let res := ccGo monthlyRate mode fixedPayment balance 0 0 600
  { months := res.2.1
    totalInterest := res.2.2
    totalPaid := balance + res.2.2
    paidOff := decide (res.1 ≤ 1/100) }

/-- Claim-side payment of one credit-card month at balance `b`:
the policy payment (fixed, or `max(max(2% b, 25), interest + 1)`),
clamped at `b + interest`. -/
def ccPaySpec (r : ℚ) (mode : String) (fixedPayment b : ℚ) : ℚ :=
  let interest := b * r
  min (if mode = "fixed" then fixedPayment
    else max (max (2/100 * b) 25) (interest + 1)) (b + interest)

/-- Claim-side balance after `m` unconditionally simulated months. -/
def ccBalSpec (r : ℚ) (mode : String) (fixedPayment b0 : ℚ) : ℕ → ℚ
  | 0 => b0
  | m + 1 =>
    let b := ccBalSpec r mode fixedPayment b0 m
    b + b * r - ccPaySpec r mode fixedPayment b

/-- Claim-side cumulative interest over the first `m` months. -/
def ccIntSpec (r : ℚ) (mode : String) (fixedPayment b0 : ℚ) : ℕ → ℚ
  | 0 => 0
  | m + 1 => ccIntSpec r mode fixedPayment b0 m +
      ccBalSpec r mode fixedPayment b0 m * r

/-- Claim-side cumulative payments over the first `m` months. -/
def ccPaidSpec (r : ℚ) (mode : String) (fixedPayment b0 : ℚ) : ℕ → ℚ
  | 0 => 0
  | m + 1 => ccPaidSpec r mode fixedPayment b0 m +
      ccPaySpec r mode fixedPayment (ccBalSpec r mode fixedPayment b0 m)

/-- Conservation: starting balance plus accrued interest equals
payments made plus outstanding balance, at every month. -/
theorem ccConservation (r : ℚ) (mode : String) (fixedPayment b0 : ℚ) :
    ∀ m, b0 + ccIntSpec r mode fixedPayment b0 m =
      ccPaidSpec r mode fixedPayment b0 m + ccBalSpec r mode fixedPayment b0 m := by
  intro m
  induction m with
  | zero => simp [ccIntSpec, ccPaidSpec, ccBalSpec]
  | succ m ih =>
    simp only [ccIntSpec, ccPaidSpec, ccBalSpec]
    linarith

/-- Master correspondence between the `creditCardSim` loop and the
claim-side trace: result fields, the months actually simulated, and
the exact stopping causes (payoff epsilon, early exit after month 3,
or fuel = the 600-month ceiling). -/
theorem ccGo_trace (r : ℚ) (mode : String) (fixedPayment b0 : ℚ) :
    ∀ (fuel months : ℕ) (res : ℚ × ℕ × ℚ),
      res = ccGo r mode fixedPayment (ccBalSpec r mode fixedPayment b0 months)
        months (ccIntSpec r mode fixedPayment b0 months) fuel →
      months ≤ res.2.1 ∧ res.2.1 ≤ months + fuel ∧
      res.1 = ccBalSpec r mode fixedPayment b0 res.2.1 ∧
      res.2.2 = ccIntSpec r mode fixedPayment b0 res.2.1 ∧
      (∀ j, months ≤ j → j < res.2.1 →
        1/100 < ccBalSpec r mode fixedPayment b0 j) ∧
      (∀ j, months < j → j < res.2.1 →
        ¬(3 < j ∧ ccPaySpec r mode fixedPayment (ccBalSpec r mode fixedPayment b0 (j-1)) ≤
          ccBalSpec r mode fixedPayment b0 (j-1) * r + 1/100)) ∧
      (res.2.1 < months + fuel →
        ccBalSpec r mode fixedPayment b0 res.2.1 ≤ 1/100 ∨
        (3 < res.2.1 ∧ months < res.2.1 ∧
          ccPaySpec r mode fixedPayment (ccBalSpec r mode fixedPayment b0 (res.2.1 - 1)) ≤
            ccBalSpec r mode fixedPayment b0 (res.2.1 - 1) * r + 1/100)) := by
  intro fuel
  induction fuel with
  | zero =>
    intro months res hres
    subst hres
    simp only [ccGo]
    refine ⟨le_refl _, by omega, by trivial, by trivial, ?_, ?_, ?_⟩
    · intro j h1 h2
      omega
    · intro j h1 h2
      omega
    · intro h
      exact absurd h (by omega)
  | succ f ih =>
    intro months res hres
    by_cases hg : (1:ℚ)/100 < ccBalSpec r mode fixedPayment b0 months
    · simp only [ccGo, if_pos hg] at hres
      have hP : min (if mode = "fixed" then fixedPayment
            else max (max (2/100 * ccBalSpec r mode fixedPayment b0 months) 25)
              (ccBalSpec r mode fixedPayment b0 months * r + 1))
            (ccBalSpec r mode fixedPayment b0 months +
              ccBalSpec r mode fixedPayment b0 months * r) =
          ccPaySpec r mode fixedPayment (ccBalSpec r mode fixedPayment b0 months) := rfl
      rw [hP] at hres
      have hB : ccBalSpec r mode fixedPayment b0 months +
            ccBalSpec r mode fixedPayment b0 months * r -
            ccPaySpec r mode fixedPayment (ccBalSpec r mode fixedPayment b0 months) =
          ccBalSpec r mode fixedPayment b0 (months + 1) := rfl
      rw [hB] at hres
      have hT : ccIntSpec r mode fixedPayment b0 months +
            ccBalSpec r mode fixedPayment b0 months * r =
          ccIntSpec r mode fixedPayment b0 (months + 1) := rfl
      rw [hT] at hres
      by_cases hbr : 3 < months + 1 ∧
          ccPaySpec r mode fixedPayment (ccBalSpec r mode fixedPayment b0 months) ≤
            ccBalSpec r mode fixedPayment b0 months * r + 1/100
      · rw [if_pos hbr] at hres
        subst hres
        dsimp only
        refine ⟨Nat.le_succ _, by omega, rfl, rfl, ?_, ?_, ?_⟩
        · intro j h1 h2
          have : j = months := by omega
          subst this
          exact hg
        · intro j h1 h2
          omega
        · intro _
          right
          refine ⟨hbr.1, by omega, ?_⟩
          simpa using hbr.2
      · rw [if_neg hbr] at hres
        obtain ⟨c1, c2, c3, c4, c5, c6, c7⟩ := ih (months + 1) res hres
        refine ⟨le_trans (Nat.le_succ _) c1, by omega, c3, c4, ?_, ?_, ?_⟩
        · intro j h1 h2
          rcases Nat.eq_or_lt_of_le h1 with h | h
          · subst h
            exact hg
          · exact c5 j h h2
        · intro j h1 h2
          rcases Nat.eq_or_lt_of_le (Nat.succ_le_of_lt h1) with h | h
          · intro hcon
            subst h
            apply hbr
            refine ⟨hcon.1, ?_⟩
            have he : months + 1 - 1 = months := by omega
            rw [he] at hcon
            exact hcon.2
          · exact c6 j h h2
        · intro h
          rcases c7 (by omega) with hl | hr
          · exact Or.inl hl
          · exact Or.inr ⟨hr.1, by omega, hr.2.2⟩
    · simp only [ccGo, if_neg hg] at hres
      subst hres
      dsimp only
      refine ⟨le_refl _, by omega, rfl, rfl, ?_, ?_, ?_⟩
      · intro j h1 h2
        omega
      · intro j h1 h2
        omega
      · intro _
        exact Or.inl (le_of_not_lt hg)

/-- C5: `creditCardSim` terminates exactly when the balance falls to
≤ 0.01, or 600 simulated months are reached (the fuel bound), or — only
at month 4 or later — the month's payment is ≤ that month's interest
+ 0.01; and `paidOff = true` iff the final balance is ≤ 0.01. -/
theorem claim_C5 (balance aprPercent : ℚ) (mode : String) (fixedPayment : ℚ)
    (hbal : 0 < balance) (hapr : 0 ≤ aprPercent)
    (r : ℚ) (hr : r = aprPercent / 100 / 12)
    (res : CCOutcome) (hres : res = creditCardSim balance aprPercent mode fixedPayment) :
    res.months ≤ 600 ∧
    (∀ j, j < res.months → 1/100 < ccBalSpec r mode fixedPayment balance j) ∧
    (∀ j, 0 < j → j < res.months →
      ¬(3 < j ∧ ccPaySpec r mode fixedPayment (ccBalSpec r mode fixedPayment balance (j-1)) ≤
        ccBalSpec r mode fixedPayment balance (j-1) * r + 1/100)) ∧
    (res.months < 600 →
      ccBalSpec r mode fixedPayment balance res.months ≤ 1/100 ∨
      (3 < res.months ∧
        ccPaySpec r mode fixedPayment (ccBalSpec r mode fixedPayment balance (res.months - 1)) ≤
          ccBalSpec r mode fixedPayment balance (res.months - 1) * r + 1/100)) ∧
    (res.paidOff = true ↔ ccBalSpec r mode fixedPayment balance res.months ≤ 1/100) := by
  subst hr
  obtain ⟨c1, c2, c3, c4, c5, c6, c7⟩ :=
    ccGo_trace (aprPercent / 100 / 12) mode fixedPayment balance 600 0
      (ccGo (aprPercent / 100 / 12) mode fixedPayment balance 0 0 600) rfl
  have hm : res.months =
      (ccGo (aprPercent / 100 / 12) mode fixedPayment balance 0 0 600).2.1 := by
    rw [hres]
    rfl
  have hp : res.paidOff =
      decide ((ccGo (aprPercent / 100 / 12) mode fixedPayment balance 0 0 600).1 ≤ 1/100) := by
    rw [hres]
    rfl
  refine ⟨?_, ?_, ?_, ?_, ?_⟩
  · rw [hm]
    omega
  · intro j hj
    rw [hm] at hj
    exact c5 j (Nat.zero_le _) hj
  · intro j h0 hj
    rw [hm] at hj
    exact c6 j h0 hj
  · intro hlt
    rw [hm] at hlt ⊢
    rcases c7 (by omega) with hl | hrr
    · exact Or.inl hl
    · exact Or.inr ⟨hrr.1, hrr.2.2⟩
  · rw [hp, decide_eq_true_iff, hm, c3]

/-- Witness for C5 at balance 500, apr 24, fixed payment 50. -/
theorem claim_C5_witness :
    (0:ℚ) < 500 ∧ (0:ℚ) ≤ 24 ∧
    (creditCardSim 500 24 "fixed" 50).months ≤ 600 :=
  ⟨by norm_num, by norm_num,
    (claim_C5 500 24 "fixed" 50 (by norm_num) (by norm_num) _ rfl _ rfl).1⟩

/-- C10: `creditCardSim` always reports
`totalPaid = startingBalance + totalInterest`; by conservation this
equals the payments actually simulated plus the final outstanding
balance, so when `paidOff = false` the reported `totalPaid` exceeds the
payments actually simulated by more than the 0.01 epsilon (it is the
hypothetical cost of full payoff, not the amount actually paid). -/
theorem claim_C10 (balance aprPercent : ℚ) (mode : String) (fixedPayment : ℚ)
    (r : ℚ) (hr : r = aprPercent / 100 / 12)
    (res : CCOutcome) (hres : res = creditCardSim balance aprPercent mode fixedPayment) :
    res.totalPaid = balance + res.totalInterest ∧
    res.totalPaid = ccPaidSpec r mode fixedPayment balance res.months +
      ccBalSpec r mode fixedPayment balance res.months ∧
    (res.paidOff = false →
      ccPaidSpec r mode fixedPayment balance res.months + 1/100 < res.totalPaid) := by
  subst hr
  obtain ⟨c1, c2, c3, c4, c5, c6, c7⟩ :=
    ccGo_trace (aprPercent / 100 / 12) mode fixedPayment balance 600 0
      (ccGo (aprPercent / 100 / 12) mode fixedPayment balance 0 0 600) rfl
  have hm : res.months =
      (ccGo (aprPercent / 100 / 12) mode fixedPayment balance 0 0 600).2.1 := by
    rw [hres]
    rfl
  have ht : res.totalPaid =
      balance + (ccGo (aprPercent / 100 / 12) mode fixedPayment balance 0 0 600).2.2 := by
    rw [hres]
    rfl
  have hti : res.totalInterest =
      (ccGo (aprPercent / 100 / 12) mode fixedPayment balance 0 0 600).2.2 := by
    rw [hres]
    rfl
  have hcons := ccConservation (aprPercent / 100 / 12) mode fixedPayment balance
    (ccGo (aprPercent / 100 / 12) mode fixedPayment balance 0 0 600).2.1
  have h2 : res.totalPaid =
      ccPaidSpec (aprPercent / 100 / 12) mode fixedPayment balance res.months +
      ccBalSpec (aprPercent / 100 / 12) mode fixedPayment balance res.months := by
    rw [ht, hm, c4]
    exact hcons
  refine ⟨by rw [ht, hti], h2, ?_⟩
  intro hpf
  have hp : res.paidOff =
      decide ((ccGo (aprPercent / 100 / 12) mode fixedPayment balance 0 0 600).1 ≤ 1/100) := by
    rw [hres]
    rfl
  rw [hp, decide_eq_false_iff_not] at hpf
  rw [c3] at hpf
  push_neg at hpf
  rw [h2, hm]
  linarith

/-- Witness for C10 at balance 500, apr 24, minimum-payment policy. -/
theorem claim_C10_witness :
    (creditCardSim 500 24 "minimum" 0).totalPaid =
      500 + (creditCardSim 500 24 "minimum" 0).totalInterest :=
  (claim_C10 500 24 "minimum" 0 _ rfl _ rfl).1

/-- `schedule[m - 1]?.payment ?? 0`: the payment of month `m`, taken as
0 past the schedule's end. -/
def payAt (s : List Row) (m : ℕ) : ℚ :=
  match s.get? (m - 1) with
  | some row => row.payment
  | none => 0

/-- `schedule[Math.min(keepMonths, schedule.length) - 1]?.balance ?? 0`:
the remaining balance at the keep horizon's end. -/
def horizonBalance (s : List Row) (keep : ℕ) : ℚ :=
  match s.get? (min keep s.length - 1) with
  | some row => row.balance
  | none => 0

/-- The accumulation loop of `refinanceBreakeven` (src/app.js lines
737-743), iterating months `m, m+1, ...` for `fuel` iterations,
carrying `cumulativeSavings` and the first month at which it reached
`closingCosts`. -/
def breakevenGo (base refi : List Row) (closing : ℚ) (cum : ℚ)
    (best : Option ℕ) (m : ℕ) : ℕ → Option ℕ
  | 0 => best
  | fuel + 1 =>
    let cum' := cum + (payAt base m - payAt refi m)
    let best' := if best = none ∧ closing ≤ cum' then some m else best
    breakevenGo base refi closing cum' best' (m + 1) fuel

/-- Result record of `refinanceBreakeven`. -/
structure RefiResult where
  breakevenMonth : Option ℕ
  netSavings : ℚ

/-- src/app.js `refinanceBreakeven(principal, baseApr, newApr, years,
extraMonthly, closingCosts, keepYears)` (line 729), parametrised by
`n = years * 12` months.  `keepYears || years` resolves JS falsiness
(`keepYears = 0` falls back to `years = n / 12`). -/
def refinanceBreakeven (principal baseApr newApr : ℚ) (n : ℕ)
    (extraMonthly closingCosts keepYears : ℚ) : RefiResult :=
  let base := amortizationSchedule principal baseApr n extraMonthly
  let refi := amortizationSchedule principal newApr n extraMonthly
  let kY := if keepYears = 0 then (n : ℚ) / 12 else keepYears
  let keepMonths := (max 1 (round (kY * 12))).toNat
  let mMax := min keepMonths (max base.months refi.months)
  let breakevenMonth := breakevenGo base.schedule refi.schedule closingCosts 0 none 1 mMax
  let basePaid := ((base.schedule.take keepMonths).map (·.payment)).sum
  let refiPaid := ((refi.schedule.take keepMonths).map (·.payment)).sum
  let baseRem := horizonBalance base.schedule keepMonths
  let refiRem := horizonBalance refi.schedule keepMonths
  { breakevenMonth := breakevenMonth
    netSavings := (basePaid + baseRem) - (refiPaid + refiRem + closingCosts) }

/-- Claim-side cumulative payment savings over months `1..m`, with a
schedule's payment taken as 0 past its end. -/
def cumSavingsSpec (base refi : List Row) : ℕ → ℚ
  | 0 => 0
  | m + 1 => cumSavingsSpec base refi m + (payAt base (m + 1) - payAt refi (m + 1))

/-- Master invariant of the break-even loop: starting at month `k + 1`
with the cumulative savings of the first `k` months and a `best` value
that is correct for the months seen so far, the final value is the
first month within range at which the cumulative savings reached the
closing costs, or `none`. -/
theorem breakevenGo_trace (base refi : List Row) (closing : ℚ) :
    ∀ (fuel k : ℕ) (best res : Option ℕ),
      (best = none → ∀ i, 1 ≤ i → i ≤ k → cumSavingsSpec base refi i < closing) →
      (∀ j0, best = some j0 →
        1 ≤ j0 ∧ j0 ≤ k ∧ closing ≤ cumSavingsSpec base refi j0 ∧
        ∀ i, 1 ≤ i → i < j0 → cumSavingsSpec base refi i < closing) →
      res = breakevenGo base refi closing (cumSavingsSpec base refi k) best (k + 1) fuel →
      (res = none → ∀ i, 1 ≤ i → i ≤ k + fuel → cumSavingsSpec base refi i < closing) ∧
      (∀ j0, res = some j0 →
        1 ≤ j0 ∧ j0 ≤ k + fuel ∧ closing ≤ cumSavingsSpec base refi j0 ∧
        ∀ i, 1 ≤ i → i < j0 → cumSavingsSpec base refi i < closing) := by
  intro fuel
  induction fuel with
  | zero =>
    intro k best res hnone hsome hres
    subst hres
    exact ⟨fun h i h1 h2 => hnone h i h1 (by omega),
      fun j0 h => ⟨(hsome j0 h).1, by exact le_trans (hsome j0 h).2.1 (by omega),
        (hsome j0 h).2.2.1, (hsome j0 h).2.2.2⟩⟩
  | succ f ih =>
    intro k best res hnone hsome hres
    simp only [breakevenGo] at hres
    have hcum : cumSavingsSpec base refi k + (payAt base (k + 1) - payAt refi (k + 1)) =
        cumSavingsSpec base refi (k + 1) := rfl
    rw [hcum] at hres
    by_cases hc : best = none ∧ closing ≤ cumSavingsSpec base refi (k + 1)
    · rw [if_pos hc] at hres
      have hnone' : (some (k+1) : Option ℕ) = none →
          ∀ i, 1 ≤ i → i ≤ k + 1 → cumSavingsSpec base refi i < closing := by
        intro h
        exact absurd h (by simp)
      have hsome' : ∀ j0, (some (k+1) : Option ℕ) = some j0 →
          1 ≤ j0 ∧ j0 ≤ k + 1 ∧ closing ≤ cumSavingsSpec base refi j0 ∧
          ∀ i, 1 ≤ i → i < j0 → cumSavingsSpec base refi i < closing := by
        intro j0 h
        have : k + 1 = j0 := by simpa using h
        subst this
        exact ⟨by omega, le_refl _, hc.2, fun i h1 h2 => hnone hc.1 i h1 (by omega)⟩
      have := ih (k + 1) (some (k+1)) res hnone' hsome' hres
      exact ⟨fun h i h1 h2 => (this.1 h) i h1 (by omega),
        fun j0 h => ⟨(this.2 j0 h).1, by have := (this.2 j0 h).2.1; omega,
          (this.2 j0 h).2.2.1, (this.2 j0 h).2.2.2⟩⟩
    · rw [if_neg hc] at hres
      have hnone' : best = none →
          ∀ i, 1 ≤ i → i ≤ k + 1 → cumSavingsSpec base refi i < closing := by
        intro hb i h1 h2
        rcases Nat.lt_or_ge i (k + 1) with h | h
        · exact hnone hb i h1 (by omega)
        · have : i = k + 1 := by omega
          subst this
          have : ¬ closing ≤ cumSavingsSpec base refi (k + 1) := by
            intro hcl
            exact hc ⟨hb, hcl⟩
          linarith [lt_of_not_le this]
      have hsome' : ∀ j0, best = some j0 →
          1 ≤ j0 ∧ j0 ≤ k + 1 ∧ closing ≤ cumSavingsSpec base refi j0 ∧
          ∀ i, 1 ≤ i → i < j0 → cumSavingsSpec base refi i < closing := by
        intro j0 h
        exact ⟨(hsome j0 h).1, by have := (hsome j0 h).2.1; omega,
          (hsome j0 h).2.2.1, (hsome j0 h).2.2.2⟩
      have := ih (k + 1) best res hnone' hsome' hres
      exact ⟨fun h i h1 h2 => (this.1 h) i h1 (by omega),
        fun j0 h => ⟨(this.2 j0 h).1, by have := (this.2 j0 h).2.1; omega,
          (this.2 j0 h).2.2.1, (this.2 j0 h).2.2.2⟩⟩

/-- C4: `refinanceBreakeven` returns as `breakevenMonth` the smallest
month `m` with `1 ≤ m ≤ min keepMonths (max baseMonths refiMonths)` at
which the cumulative payment savings (payments taken as 0 past a
schedule's end) reach `closingCosts`, and `none` when no such month
exists; and `netSavings` is (base payments over the first `keepMonths`
plus base remaining balance at the horizon end) minus (the same for
the refi schedule plus `closingCosts`). -/
theorem claim_C4 (P baseApr newApr extraMonthly closingCosts keepYears : ℚ)
    (n : ℕ) (base refi : AmortResult)
    (hbase : base = amortizationSchedule P baseApr n extraMonthly)
    (hrefi : refi = amortizationSchedule P newApr n extraMonthly)
    (keepMonths : ℕ)
    (hkeep : keepMonths =
      (max 1 (round ((if keepYears = 0 then (n : ℚ) / 12 else keepYears) * 12))).toNat)
    (mMax : ℕ) (hmMax : mMax = min keepMonths (max base.months refi.months))
    (res : RefiResult)
    (hres : res = refinanceBreakeven P baseApr newApr n extraMonthly closingCosts keepYears) :
    (res.breakevenMonth = none → ∀ m, 1 ≤ m → m ≤ mMax →
      cumSavingsSpec base.schedule refi.schedule m < closingCosts) ∧
    (∀ m, res.breakevenMonth = some m →
      1 ≤ m ∧ m ≤ mMax ∧
      closingCosts ≤ cumSavingsSpec base.schedule refi.schedule m ∧
      ∀ i, 1 ≤ i → i < m → cumSavingsSpec base.schedule refi.schedule i < closingCosts) ∧
    res.netSavings =
      (((base.schedule.take keepMonths).map (·.payment)).sum +
        horizonBalance base.schedule keepMonths) -
      (((refi.schedule.take keepMonths).map (·.payment)).sum +
        horizonBalance refi.schedule keepMonths + closingCosts) := by
  subst hbase hrefi hkeep hmMax hres
  have h0 := breakevenGo_trace
    (amortizationSchedule P baseApr n extraMonthly).schedule
    (amortizationSchedule P newApr n extraMonthly).schedule closingCosts
    (min ((max 1 (round ((if keepYears = 0 then (n : ℚ) / 12 else keepYears) * 12))).toNat)
      (max (amortizationSchedule P baseApr n extraMonthly).months
        (amortizationSchedule P newApr n extraMonthly).months))
    0 none
    (refinanceBreakeven P baseApr newApr n extraMonthly closingCosts keepYears).breakevenMonth
    (fun _ i h1 h2 => absurd (le_trans h1 h2) (by omega))
    (fun j0 h => absurd h (by simp))
    rfl
  refine ⟨fun h m h1 h2 => (h0.1 h) m h1 (by omega), fun m h => ?_, rfl⟩
  obtain ⟨a1, a2, a3, a4⟩ := h0.2 m h
  exact ⟨a1, by omega, a3, a4⟩

/-- Witness for C4 at P = 100, both rates 0, n = 2 months, closing
costs 1000, keepYears 1 (keepMonths = 12). -/
theorem claim_C4_witness :
    (refinanceBreakeven 100 0 0 2 0 1000 1).netSavings =
      ((((amortizationSchedule 100 0 2 0).schedule.take 12).map (·.payment)).sum +
        horizonBalance (amortizationSchedule 100 0 2 0).schedule 12) -
      ((((amortizationSchedule 100 0 2 0).schedule.take 12).map (·.payment)).sum +
        horizonBalance (amortizationSchedule 100 0 2 0).schedule 12 + 1000) :=
  (claim_C4 100 0 0 0 1000 1 2 _ _ rfl rfl 12
    (by norm_num [round_eq]
        rfl) _ rfl _ rfl).2.2

/-- JS `(a % b) === 0` for a natural dividend `a` and an integer
divisor `b`: with `b = 0` the remainder is `NaN`, which is never
`=== 0`; with a negative divisor the remainder carries the dividend's
sign, so for `a ≥ 0` the test equals `a % |b| = 0`. -/
def jsRemEqZero (a : ℕ) (b : ℤ) : Bool := b ≠ 0 && (a % b.natAbs == 0)

/-- Loop of src/app.js `buildRatePathSteps` (line 767): months
`m, m+1, ...` for `rem` iterations; a bump fires when `m !== 1` and
`(m-1) % everyMonths === 0`, adding `stepPct` and clamping at `capApr`
when that is finite (`none` models a non-finite cap). -/
def stepsGo (stepPct : ℚ) (everyMonths : ℤ) (capApr : Option ℚ) (apr : ℚ)
    (m : ℕ) : ℕ → List (ℕ × ℚ)
  | 0 => []
  | rem + 1 =>
    let apr' := if m ≠ 1 ∧ jsRemEqZero (m - 1) everyMonths = true then
        (match capApr with
         | some c => min (apr + stepPct) c
         | none => apr + stepPct)
      else apr
    (m, apr') :: stepsGo stepPct everyMonths capApr apr' (m + 1) rem

/-- src/app.js `buildRatePathSteps(baseApr, stepPct, everyMonths,
durationMonths, capApr)`. -/
def buildRatePathSteps (baseApr stepPct : ℚ) (everyMonths : ℤ)
    (durationMonths : ℕ) (capApr : Option ℚ) : List (ℕ × ℚ) :=
  stepsGo stepPct everyMonths capApr baseApr 1 durationMonths

/-- Parameter object of src/app.js `buildRatePathARM` (line 842):
non-finite caps/floor (`isFinite` guards) are `none`. -/
structure ARMParams where
  startApr : ℚ
  fixedYears : ℚ
  adjustEveryMonths : ℚ
  indexRate : ℚ
  margin : ℚ
  periodicCap : Option ℚ
  lifetimeCap : Option ℚ
  floorRate : Option ℚ
  simMonthsMax : Option ℕ

/-- Adjustment loop of `buildRatePathARM`: months `m, m+1, ...` for
`rem` iterations past the fixed period; a reset fires when
`(m - (fixedMonths+1)) % adjEvery = 0`; the target is index + margin,
clamped by the periodic cap around `last`, the lifetime cap above
`startApr`, and the floor, in that order. -/
def armGo (targetBase : ℚ) (capPer capLife floor : Option ℚ) (startApr : ℚ)
    (fixedMonths adjEvery : ℕ) (last : ℚ) (m : ℕ) : ℕ → List (ℕ × ℚ)
  | 0 => []
  | rem + 1 =>
    if (m - (fixedMonths + 1)) % adjEvery = 0 then
      let t1 := match capPer with
        | some c => min (last + c) (max (last - c) targetBase)
        | none => targetBase
      let t2 := match capLife with
        | some c => min (startApr + c) t1
        | none => t1
      let t3 := match floor with
        | some fl => max fl t2
        | none => t2
      (m, t3) :: armGo targetBase capPer capLife floor startApr fixedMonths
        adjEvery t3 (m + 1) rem
    else
      (m, last) :: armGo targetBase capPer capLife floor startApr fixedMonths
        adjEvery last (m + 1) rem

/-- src/app.js `buildRatePathARM` (line 842): fixed period at
`startApr` for `max 0 (round (fixedYears * 12))` months, then the
adjustment loop with `adjEvery = max 1 (round adjustEveryMonths)`, up
to `maxMonths = max 1 (simMonthsMax || 600)` (JS truthiness: `0` falls
back to 600); `targetBase = (indexRate || 0) + (margin || 0)` for the
numeric inputs the callers validate. -/
def buildRatePathARM (p : ARMParams) : List (ℕ × ℚ) :=
  let fixedMonths := (max 0 (round (p.fixedYears * 12))).toNat
  let adjEvery := (max 1 (round p.adjustEveryMonths)).toNat
  let capPer := p.periodicCap.map (fun c => max 0 c)
  let capLife := p.lifetimeCap.map (fun c => max 0 c)
  let targetBase := p.indexRate + p.margin
  let maxMonths := max 1 (match p.simMonthsMax with
    | none => 600
    | some s => if s = 0 then 600 else s)
  ((List.range' 1 (min fixedMonths maxMonths)).map (fun m => (m, p.startApr))) ++
    armGo targetBase capPer capLife p.floorRate p.startApr fixedMonths adjEvery
      p.startApr (fixedMonths + 1) (maxMonths - fixedMonths)

/-- With a monthly reset (`adjEvery = 1`) and no caps or floor, every
month of the adjustment loop carries `targetBase`. -/
theorem armGo_every1_no_caps (targetBase startApr : ℚ) (fixedMonths : ℕ) :
    ∀ (rem m : ℕ) (last : ℚ),
      armGo targetBase none none none startApr fixedMonths 1 last m rem =
        (List.range' m rem).map (fun i => (i, targetBase)) := by
  intro rem
  induction rem with
  | zero => intro m last; simp [armGo]
  | succ r ih =>
    intro m last
    rw [List.range'_succ]
    simp only [armGo, Nat.mod_one, if_pos rfl, List.map_cons]
    exact congrArg _ (ih (m + 1) targetBase)

/-- With `everyMonths = 0` no bump ever fires in the step loop: every
month carries the incoming rate. -/
theorem stepsGo_zero_every (stepPct : ℚ) (capApr : Option ℚ) :
    ∀ (rem m : ℕ) (apr : ℚ),
      (stepsGo stepPct 0 capApr apr m rem).map Prod.snd =
        List.replicate rem apr := by
  intro rem
  induction rem with
  | zero => intro m apr; simp [stepsGo]
  | succ r ih =>
    intro m apr
    have hcond : ¬(m ≠ 1 ∧ jsRemEqZero (m - 1) 0 = true) := by
      simp [jsRemEqZero]
    simp only [stepsGo, if_neg hcond, List.map_cons, List.replicate_succ]
    exact congrArg _ (ih (m + 1) apr)

/-- C9 counterexample: a negative `everyMonths` still fires bumps in
the step-shock builder (JS `%` with a negative divisor), so month 2 of
`buildRatePathSteps 5 1 (-1) 2` carries 6 ≠ 5; and the ARM builder
clamps `adjustEveryMonths = 0` to 1, resetting every month, so with
index + margin = 7 every month after a zero-length fixed period
carries 7 ≠ 5 instead of the starting APR. -/
theorem claim_C9_counterexample :
    buildRatePathSteps 5 1 (-1) 2 none = [(1, 5), (2, 6)] ∧
    ((6:ℚ) ≠ 5) ∧
    buildRatePathARM ⟨5, 0, 0, 7, 0, none, none, none, some 3⟩ =
      [(1, 7), (2, 7), (3, 7)] ∧
    ((7:ℚ) ≠ 5) := by
  refine ⟨?_, by norm_num, ?_, by norm_num⟩
  · show stepsGo 1 (-1) none 5 1 2 = _
    rw [show (2:ℕ) = 1 + 1 from rfl, stepsGo]
    norm_num [jsRemEqZero]
    rw [show (1:ℕ) = 0 + 1 from rfl, stepsGo]
    norm_num [jsRemEqZero, stepsGo]
  · simp only [buildRatePathARM]
    norm_num
    rw [armGo_every1_no_caps]
    norm_num [List.range']

/-- C9 amended: with `everyMonths = 0` (JS `% 0` is `NaN`) the
step-shock curve really does stay flat at the starting APR; but a
negative `everyMonths` fires bumps whenever `|everyMonths|` divides
`m - 1`, and the ARM builder clamps any `adjustEveryMonths ≤ 0` to 1 —
adjusting every month after the fixed period, i.e. it behaves exactly
as with `adjustEveryMonths = 1`, not as a flat curve. -/
theorem claim_C9_amended :
    (∀ (baseApr stepPct : ℚ) (durationMonths : ℕ) (capApr : Option ℚ),
      (buildRatePathSteps baseApr stepPct 0 durationMonths capApr).map Prod.snd =
        List.replicate durationMonths baseApr) ∧
    (∀ p : ARMParams, p.adjustEveryMonths ≤ 0 →
      buildRatePathARM p = buildRatePathARM {p with adjustEveryMonths := 1}) := by
  constructor
  · intro baseApr stepPct durationMonths capApr
    exact stepsGo_zero_every stepPct capApr durationMonths 1 baseApr
  · intro p hle
    have h1 : round p.adjustEveryMonths ≤ 0 := by
      rw [round_eq]
      calc ⌊p.adjustEveryMonths + 1/2⌋ ≤ ⌊(0:ℚ) + 1/2⌋ :=
            Int.floor_le_floor (by linarith)
        _ = 0 := by norm_num
    have h2 : (max 1 (round p.adjustEveryMonths)).toNat = 1 := by
      have hm : max 1 (round p.adjustEveryMonths) = 1 :=
        max_eq_left (le_trans h1 (by norm_num))
      rw [hm]
      rfl
    simp only [buildRatePathARM]
    rw [h2]
    norm_num [round_one]

/-- Witness for the amended C9: a flat two-month step curve at
`everyMonths = 0`, and the ARM builder at `adjustEveryMonths = 0`
behaving as at `adjustEveryMonths = 1`. -/
theorem claim_C9_witness :
    (buildRatePathSteps 5 1 0 2 none).map Prod.snd = List.replicate 2 5 ∧
    buildRatePathARM ⟨5, 0, 0, 7, 0, none, none, none, some 3⟩ =
      buildRatePathARM ⟨5, 0, 1, 7, 0, none, none, none, some 3⟩ :=
  ⟨claim_C9_amended.1 5 1 2 none,
    claim_C9_amended.2 ⟨5, 0, 0, 7, 0, none, none, none, some 3⟩ (by norm_num)⟩

/-- Witness for C6 at concrete inputs of both schedule generators. -/
theorem claim_C6_witness :
    paymentSplits (amortizationSchedule 100 0 2 0).schedule ∧
    paymentSplits (simulateStressAmortized 100 12 0 0 (fun _ => none) none).schedule :=
  ⟨(claim_C6.1 100 0 0 2).1, (claim_C6.2 100 0 0 12 (fun _ => none) none).1⟩
